import Mathlib

/-!
Shallow embedding of the PIN-joined chat-room coordinator
(`src/unnamed/part_001`, the richer socket.io server, and the pin
allocator `generatePIN` of `src/P1/proyecto 1/index.js`).

The JavaScript `Map` objects (`rooms`, `deviceRoomMap`,
`socketToDeviceMap`) are embedded as functions to `Option` (a JS `Map`
has unique keys, so it denotes exactly a partial function).  PINs are
kept in their string form (`Math.floor(100000 + Math.random()*900000).toString()`
becomes `Nat.repr` of a draw mapped into the range).  `Date` values are
embedded as an abstract `now : Nat` supplied by the caller.  Transport
side effects (`socket.join`, `io.to(pin).emit`, `callback`) are
represented by the returned values: request handlers return their
response/`room_update`-relevant data, and `send_message` returns the
`receive_message` payload it would broadcast (`none` = silently dropped).
-/

namespace Chat

/-- A JS `Map<α, β>`: a partial function with pointwise `get`. -/
def Map (α β : Type) : Type := α → Option β

/-- `Map.set m k v` is JS `m.set(k, v)`. -/
def Map.set {α β : Type} [DecidableEq α] (m : Map α β) (k : α) (v : β) : Map α β :=
  fun x => if x = k then some v else m x

/-- `Map.del m k` is JS `m.delete(k)`. -/
def Map.del {α β : Type} [DecidableEq α] (m : Map α β) (k : α) : Map α β :=
  fun x => if x = k then none else m x

/-- The empty JS `Map`. -/
def Map.empty {α β : Type} : Map α β := fun _ => none

theorem Map.set_eq {α β : Type} [DecidableEq α] (m : Map α β) (k : α) (v : β) :
    Map.set m k v k = some v := by simp [Map.set]

theorem Map.set_ne {α β : Type} [DecidableEq α] (m : Map α β) (k : α) (v : β)
    {x : α} (h : x ≠ k) : Map.set m k v x = m x := by simp [Map.set, h]

theorem Map.del_eq {α β : Type} [DecidableEq α] (m : Map α β) (k : α) :
    Map.del m k k = none := by simp [Map.del]

theorem Map.del_ne {α β : Type} [DecidableEq α] (m : Map α β) (k : α)
    {x : α} (h : x ≠ k) : Map.del m k x = m x := by simp [Map.del, h]

/-- A room member, JS `{ socketId, nickname, deviceId, joinedAt }`
(pushed by the `join_room` handler). -/
structure User where
  socketId : String
  nickname : String
  deviceId : String
  joinedAt : Nat
deriving DecidableEq

/-- Room data, JS `{ hostSocketId, limit, users, createdAt }`
(built by the `create_room` handler). -/
structure RoomData where
  hostSocketId : String
  limit : Nat
  users : List User
  createdAt : Nat
deriving DecidableEq

/-- The registry state: the three module-level maps of the server. -/
structure ServerState where
  rooms : Map String RoomData
  deviceRoomMap : Map String String
  socketToDeviceMap : Map String String

/-- State at process start: all three maps empty. -/
def initialState : ServerState :=
  { rooms := Map.empty, deviceRoomMap := Map.empty, socketToDeviceMap := Map.empty }

/-- The error taxonomy of the handlers.  `invalidInput` covers the
incomplete-payload rejections of `create_room` and `join_room`; the other
four are the `join_room` cascade. -/
inductive RoomError where
  | invalidInput
  | roomNotFound
  | roomFull
  | deviceAlreadyElsewhere
  | deviceAlreadyInRoom
deriving DecidableEq

/-- Successful `create_room` callback payload
`{ success: true, pin, participants: 1, limit }`. -/
structure CreateOk where
  pin : String
  participants : Nat
  limit : Nat
deriving DecidableEq

/-- Successful `join_room` callback payload
`{ success: true, pin, participants, limit }`. -/
structure JoinOk where
  pin : String
  participants : Nat
  limit : Nat
deriving DecidableEq

/-- The `receive_message` broadcast payload `{ autor, message, timestamp }`. -/
structure ReceiveMessage where
  autor : String
  message : String
  timestamp : Nat
deriving DecidableEq

/-- One draw of `Math.floor(100000 + Math.random() * 900000)`:
`Math.random()` yields a real in `[0, 1)`, so the result is an integer
in `[100000, 999999]`.  We model the randomness source as a `Nat` and
fold it into the range. -/
def pinFromDraw (d : Nat) : Nat := 100000 + d % 900000

/-- `generatePIN` of the simpler variant (`src/P1/proyecto 1/index.js`):
one draw, stringified, with no uniqueness re-check against `rooms`. -/
def generatePIN (draw : Nat) : String := Nat.repr (pinFromDraw draw)

/-- `generateUniquePIN` of `src/unnamed/part_001`: draw, and re-draw
while `rooms.has(pin)`.  The unbounded `do..while` loop is embedded with
an explicit list of draws; `none` means the supplied draws were
exhausted before a fresh PIN appeared (the loop would still be running). -/
def generateUniquePIN (rooms : Map String RoomData) : List Nat → Option String
  | [] => none
  | d :: ds =>
    let pin := Nat.repr (pinFromDraw d)
    if (rooms pin).isSome then generateUniquePIN rooms ds else some pin

/-- The `create_room` handler of `src/unnamed/part_001`.  Validates
`!nickname || !limit || limit < 2` (over `Nat`, that is `nickname = ""`
or `limit < 2`), then allocates a fresh PIN and stores a room with an
empty `users` list.  The outer `none` is the fuel-exhaustion case of
`generateUniquePIN`; on the error path no draws are consumed because the
validation precedes PIN generation. -/
def createRoom (st : ServerState) (socketId nickname : String) (limit : Nat)
    (draws : List Nat) (now : Nat) : Option (Except RoomError CreateOk × ServerState) :=
  if nickname = "" ∨ limit < 2 then
    some (.error .invalidInput, st)
  else
    match generateUniquePIN st.rooms draws with
    | none => none
    | some pin =>
      let roomData : RoomData :=
        { hostSocketId := socketId, limit := limit, users := [], createdAt := now }
      some (.ok { pin := pin, participants := 1, limit := roomData.limit },
        { st with rooms := Map.set st.rooms pin roomData })

/-- The user object pushed by `join_room`:
`{ socketId: socket.id, nickname, deviceId, joinedAt: new Date() }`. -/
def mkUser (socketId nickname deviceId : String) (now : Nat) : User :=
  { socketId := socketId, nickname := nickname, deviceId := deviceId, joinedAt := now }

/-- The state produced by a successful `join_room`: push the user onto
`room.users`, set `deviceRoomMap[deviceId] = pin` and
`socketToDeviceMap[socketId] = deviceId`. -/
def joinSuccessState (st : ServerState) (socketId pin nickname deviceId : String)
    (now : Nat) (room : RoomData) : ServerState :=
  { rooms := Map.set st.rooms pin
      { room with users := room.users ++ [mkUser socketId nickname deviceId now] },
    deviceRoomMap := Map.set st.deviceRoomMap deviceId pin,
    socketToDeviceMap := Map.set st.socketToDeviceMap socketId deviceId }

/-- Tail of the `join_room` cascade, after the room was found, was not
full, and the device was not indexed to a different room: the
`room.users.some(user => user.deviceId === deviceId)` check, then the
success path.  `participants` is read from `room.users.length` after the
push. -/
def joinRoomFinish (st : ServerState) (socketId pin nickname deviceId : String)
    (now : Nat) (room : RoomData) : Except RoomError JoinOk × ServerState :=
  if room.users.any (fun u => u.deviceId == deviceId) then
    (.error .deviceAlreadyInRoom, st)
  else
    (.ok { pin := pin,
           participants := (room.users ++ [mkUser socketId nickname deviceId now]).length,
           limit := room.limit },
      joinSuccessState st socketId pin nickname deviceId now room)

/-- The `join_room` handler of `src/unnamed/part_001`.  Cascade:
incomplete payload, `RoomNotFound`, `RoomFull`,
`DeviceAlreadyElsewhere` (`deviceRoomMap.has(deviceId) && deviceRoomMap.get(deviceId) !== pin`),
`DeviceAlreadyInRoom`; first failure returns, later checks are skipped. -/
def joinRoom (st : ServerState) (socketId pin nickname deviceId : String)
    (now : Nat) : Except RoomError JoinOk × ServerState :=
  if pin = "" ∨ nickname = "" ∨ deviceId = "" then
    (.error .invalidInput, st)
  else
    match st.rooms pin with
    | none => (.error .roomNotFound, st)
    | some room =>
      if room.users.length ≥ room.limit then
        (.error .roomFull, st)
      else
        match st.deviceRoomMap deviceId with
        | some otherPin =>
          if otherPin = pin then
            joinRoomFinish st socketId pin nickname deviceId now room
          else
            (.error .deviceAlreadyElsewhere, st)
        | none => joinRoomFinish st socketId pin nickname deviceId now room

/-- JS `String.prototype.trim`: strip leading and trailing whitespace. -/
def jsTrim (s : String) : String :=
  ⟨(((s.data.dropWhile Char.isWhitespace).reverse.dropWhile Char.isWhitespace).reverse)⟩

/-- The `send_message` handler of `src/unnamed/part_001`.  Drops the
request (`none`, nothing broadcast, no error to the sender) when any
payload field is falsy or the room does not exist; otherwise returns the
`receive_message` payload broadcast to the room: the author, the
trimmed text and the server timestamp.  The registry state is never
mutated. -/
def sendMessage (st : ServerState) (pin autor message : String) (now : Nat) :
    Option ReceiveMessage :=
  if pin = "" ∨ autor = "" ∨ message = "" then none
  else
    match st.rooms pin with
    | none => none
    | some _ => some { autor := autor, message := jsTrim message, timestamp := now }

/-- `room.users.findIndex(u => u.socketId === socket.id)` followed by
`room.users.splice(userIndex, 1)`: locate the first user with the given
socket id and remove it, returning it together with the remaining list
(`none` when `findIndex` yields `-1`). -/
def removeBySocket (socketId : String) : List User → Option (User × List User)
  | [] => none
  | u :: us =>
    if u.socketId = socketId then some (u, us)
    else (removeBySocket socketId us).map (fun p => (p.1, u :: p.2))

/-- The `disconnect` handler of `src/unnamed/part_001`.  Resolves the
device via `socketToDeviceMap`, the pin via `deviceRoomMap`, the room via
`rooms`, removes the first member matching the socket id, deletes both
index entries, and — when the room became empty — schedules the deferred
cleanup (returned as `some pin`; `none` means no timer was scheduled).
Every failed lookup (JS falsy check, hence also the empty string) leaves
the state untouched. -/
def disconnect (st : ServerState) (socketId : String) : ServerState × Option String :=
  match st.socketToDeviceMap socketId with
  | none => (st, none)
  | some deviceId =>
    if deviceId = "" then (st, none)
    else
      match st.deviceRoomMap deviceId with
      | none => (st, none)
      | some pin =>
        if pin = "" then (st, none)
        else
          match st.rooms pin with
          | none => (st, none)
          | some room =>
            match removeBySocket socketId room.users with
            | none => (st, none)
            | some (_, rest) =>
              (⟨Map.set st.rooms pin { room with users := rest },
                Map.del st.deviceRoomMap deviceId,
                Map.del st.socketToDeviceMap socketId⟩,
                if rest.length = 0 then some pin else none)

/-- The body of the deferred-cleanup `setTimeout` scheduled by
`disconnect`: at fire time, delete the room only if it still exists and
its member list is still empty
(`if (rooms.has(pin) && rooms.get(pin).users.length === 0)`). -/
def cleanupRoom (st : ServerState) (pin : String) : ServerState :=
  match st.rooms pin with
  | none => st
  | some room =>
    if room.users.length = 0 then { st with rooms := Map.del st.rooms pin } else st

/-- One inbound event of the coordinator, for reachability arguments.
`fireCleanup` is the deferred-cleanup timer going off. -/
inductive Op where
  | create (socketId nickname : String) (limit : Nat) (draws : List Nat) (now : Nat)
  | join (socketId pin nickname deviceId : String) (now : Nat)
  | send (pin autor message : String) (now : Nat)
  | disc (socketId : String)
  | fireCleanup (pin : String)

/-- State transition of one event (responses and broadcasts projected
away).  `send_message` never mutates the registry; a `create_room` whose
PIN loop is still drawing (`none`) has not changed the state either. -/
def applyOp (st : ServerState) : Op → ServerState
  | .create socketId nickname limit draws now =>
    match createRoom st socketId nickname limit draws now with
    | some (_, st2) => st2
    | none => st
  | .join socketId pin nickname deviceId now =>
    (joinRoom st socketId pin nickname deviceId now).2
  | .send _ _ _ _ => st
  | .disc socketId => (disconnect st socketId).1
  | .fireCleanup pin => cleanupRoom st pin

/-- States reachable from process start by any event sequence. -/
inductive Reachable : ServerState → Prop
  | init : Reachable initialState
  | step (st : ServerState) (op : Op) (h : Reachable st) : Reachable (applyOp st op)

/-- A join event is device-consistent with a state when the connection
is not yet bound to a device, or is bound to the very device it presents
(the intended client behaviour: `deviceId` is one persisted token per
device, see `getOrCreateDeviceId` in the client). -/
def ConsistentOp (st : ServerState) : Op → Prop
  | .join socketId _ _ deviceId _ =>
    st.socketToDeviceMap socketId = none ∨ st.socketToDeviceMap socketId = some deviceId
  | _ => True

/-- States reachable when every join presents a device consistent with
the connection's recorded device. -/
inductive DReachable : ServerState → Prop
  | init : DReachable initialState
  | step (st : ServerState) (op : Op) (h : DReachable st) (hc : ConsistentOp st op) :
      DReachable (applyOp st op)

/-- Run a trace of events from a state. -/
def execTrace (st : ServerState) : List Op → ServerState
  | [] => st
  | op :: tr => execTrace (applyOp st op) tr

/-- A trace in which every join event issued by `sid` fails at the state
where it is executed (so `sid` never performs a successful join). -/
def noSuccessfulJoinBy (sid : String) : ServerState → List Op → Prop
  | _, [] => True
  | st, op :: tr =>
    (∀ pin nick dev now, op = Op.join sid pin nick dev now →
      ∃ e, (joinRoom st sid pin nick dev now).1 = Except.error e) ∧
    noSuccessfulJoinBy sid (applyOp st op) tr

theorem Map.del_of_none {α β : Type} [DecidableEq α] (m : Map α β) (k x : α)
    (h : m x = none) : Map.del m k x = none := by
  unfold Map.del
  split <;> simp [h]

/-- A number in the PIN range prints with six decimal digits. -/
theorem six_digits_of_range (n : Nat) (h1 : 100000 ≤ n) (h2 : n ≤ 999999) :
    (Nat.digits 10 n).length = 6 := by
  rw [Nat.digits_len 10 n (by norm_num) (by omega)]
  have : Nat.log 10 n = 5 :=
    Nat.log_eq_of_pow_le_of_lt_pow (by norm_num; omega) (by norm_num; omega)
  omega

/-- Any draw lands in the PIN range. -/
theorem pinFromDraw_range (d : Nat) : 100000 ≤ pinFromDraw d ∧ pinFromDraw d ≤ 999999 := by
  unfold pinFromDraw
  have := Nat.mod_lt d (show 0 < 900000 by norm_num)
  omega

/-- What `generateUniquePIN` guarantees when the loop finishes: the
returned string is the decimal form of a number in the 6-digit range and
is not the key of any active room. -/
theorem generateUniquePIN_spec (rooms : Map String RoomData) (draws : List Nat)
    (p : String) (h : generateUniquePIN rooms draws = some p) :
    rooms p = none ∧ ∃ n, p = Nat.repr n ∧ 100000 ≤ n ∧ n ≤ 999999 := by
  induction draws with
  | nil => simp [generateUniquePIN] at h
  | cons d ds ih =>
    rw [generateUniquePIN] at h
    by_cases hs : (rooms (Nat.repr (pinFromDraw d))).isSome
    · rw [if_pos hs] at h
      exact ih h
    · rw [if_neg hs] at h
      cases h
      refine ⟨Option.not_isSome_iff_eq_none.mp hs, pinFromDraw d, rfl,
        (pinFromDraw_range d).1, (pinFromDraw_range d).2⟩

/-- `generatePIN` of the simpler variant also lands in the 6-digit range
(but performs no freshness check). -/
theorem generatePIN_range (d : Nat) :
    ∃ n, generatePIN d = Nat.repr n ∧ 100000 ≤ n ∧ n ≤ 999999 :=
  ⟨pinFromDraw d, rfl, (pinFromDraw_range d).1, (pinFromDraw_range d).2⟩

/-- `create_room` rejects exactly the incomplete/under-capacity payloads,
and rejection happens before any PIN is drawn or state is touched. -/
theorem createRoom_error_iff (st : ServerState) (s nick : String) (limit : Nat)
    (draws : List Nat) (now : Nat) :
    (∃ e st2, createRoom st s nick limit draws now = some (.error e, st2)) ↔
      (nick = "" ∨ limit < 2) := by
  constructor
  · rintro ⟨e, st2, h⟩
    by_contra hv
    rw [createRoom, if_neg hv] at h
    cases hg : generateUniquePIN st.rooms draws with
    | none => rw [hg] at h; cases h
    | some pin => rw [hg] at h; cases h
  · intro hv
    exact ⟨.invalidInput, st, by rw [createRoom, if_pos hv]⟩

/-- On the `create_room` error path the state is returned untouched. -/
theorem createRoom_error_state (st : ServerState) (s nick : String) (limit : Nat)
    (draws : List Nat) (now : Nat) (e : RoomError) (st2 : ServerState)
    (h : createRoom st s nick limit draws now = some (.error e, st2)) : st2 = st := by
  rw [createRoom] at h
  by_cases hv : nick = "" ∨ limit < 2
  · rw [if_pos hv] at h
    cases h
    rfl
  · rw [if_neg hv] at h
    cases hg : generateUniquePIN st.rooms draws with
    | none => rw [hg] at h; cases h
    | some pin => rw [hg] at h; cases h

/-- Characterization of a successful `create_room`: the validation
passed, the PIN came out of `generateUniquePIN`, the response carries
`participants = 1`, and the new room is stored with an empty member
list; the index maps are untouched. -/
theorem createRoom_ok_spec (st : ServerState) (s nick : String) (limit : Nat)
    (draws : List Nat) (now : Nat) (res : CreateOk) (st2 : ServerState)
    (h : createRoom st s nick limit draws now = some (.ok res, st2)) :
    ¬(nick = "" ∨ limit < 2) ∧
    generateUniquePIN st.rooms draws = some res.pin ∧
    res.participants = 1 ∧ res.limit = limit ∧
    st2.rooms res.pin =
      some { hostSocketId := s, limit := limit, users := [], createdAt := now } ∧
    (∀ q, q ≠ res.pin → st2.rooms q = st.rooms q) ∧
    st2.deviceRoomMap = st.deviceRoomMap ∧
    st2.socketToDeviceMap = st.socketToDeviceMap := by
  rw [createRoom] at h
  by_cases hv : nick = "" ∨ limit < 2
  · rw [if_pos hv] at h
    cases h
  · rw [if_neg hv] at h
    cases hg : generateUniquePIN st.rooms draws with
    | none => rw [hg] at h; cases h
    | some pin =>
      rw [hg] at h
      cases h
      exact ⟨hv, rfl, rfl, rfl, Map.set_eq _ _ _, fun q hq => Map.set_ne _ _ _ hq, rfl, rfl⟩

/-- `create_room` never touches the device and socket indices, whatever
its outcome. -/
theorem applyOp_create_indices (st : ServerState) (s nick : String) (limit : Nat)
    (draws : List Nat) (now : Nat) :
    (applyOp st (.create s nick limit draws now)).deviceRoomMap = st.deviceRoomMap ∧
    (applyOp st (.create s nick limit draws now)).socketToDeviceMap =
      st.socketToDeviceMap := by
  rw [applyOp, createRoom]
  by_cases hv : nick = "" ∨ limit < 2
  · rw [if_pos hv]
    exact ⟨rfl, rfl⟩
  · rw [if_neg hv]
    cases hg : generateUniquePIN st.rooms draws with
    | none => exact ⟨rfl, rfl⟩
    | some pin => exact ⟨rfl, rfl⟩

/-- `send_message` broadcasts exactly when all three payload fields are
truthy and the room exists; the payload carries the author, the trimmed
text and the server timestamp. -/
theorem sendMessage_some_iff (st : ServerState) (pin autor msg : String) (now : Nat)
    (out : ReceiveMessage) :
    sendMessage st pin autor msg now = some out ↔
      (pin ≠ "" ∧ autor ≠ "" ∧ msg ≠ "" ∧ (st.rooms pin).isSome = true ∧
        out = { autor := autor, message := jsTrim msg, timestamp := now }) := by
  rw [sendMessage]
  by_cases hv : pin = "" ∨ autor = "" ∨ msg = ""
  · rw [if_pos hv]
    constructor
    · intro h; cases h
    · rintro ⟨h1, h2, h3, -, -⟩
      exact absurd hv (by simp [h1, h2, h3])
  · rw [if_neg hv]
    push_neg at hv
    obtain ⟨h1, h2, h3⟩ := hv
    cases hr : st.rooms pin with
    | none => simp [h1, h2, h3]
    | some room =>
      simp only [Option.some_inj, Option.isSome_some, h1, h2, h3, ne_eq,
        not_false_eq_true, true_and]
      exact ⟨fun h => h.symm, fun h => h.symm⟩

/-- The final `join_room` check: either the device already has a member
in this room, or the join succeeds with `participants` read from the
member list after the push. -/
theorem joinRoomFinish_cases (st : ServerState) (s pin nick dev : String) (now : Nat)
    (room : RoomData) :
    (room.users.any (fun u => u.deviceId == dev) = true ∧
      joinRoomFinish st s pin nick dev now room = (.error .deviceAlreadyInRoom, st)) ∨
    ((∀ u ∈ room.users, u.deviceId ≠ dev) ∧
      joinRoomFinish st s pin nick dev now room =
        (.ok { pin := pin, participants := room.users.length + 1, limit := room.limit },
          joinSuccessState st s pin nick dev now room)) := by
  rw [joinRoomFinish]
  by_cases ha : room.users.any (fun u => u.deviceId == dev) = true
  · rw [if_pos ha]
    exact .inl ⟨ha, rfl⟩
  · rw [if_neg ha]
    refine .inr ⟨?_, by simp⟩
    intro u hu he
    apply ha
    rw [List.any_eq_true]
    exact ⟨u, hu, by simp [he]⟩

/-- Master case split for `join_room`: either some check failed and the
state came back untouched, or all checks passed and the member was
appended with both indices updated. -/
theorem joinRoom_cases (st : ServerState) (s pin nick dev : String) (now : Nat) :
    (∃ e, joinRoom st s pin nick dev now = (.error e, st)) ∨
    (pin ≠ "" ∧ nick ≠ "" ∧ dev ≠ "" ∧
      ∃ room, st.rooms pin = some room ∧
        room.users.length < room.limit ∧
        (st.deviceRoomMap dev = none ∨ st.deviceRoomMap dev = some pin) ∧
        (∀ u ∈ room.users, u.deviceId ≠ dev) ∧
        joinRoom st s pin nick dev now =
          (.ok { pin := pin, participants := room.users.length + 1, limit := room.limit },
            joinSuccessState st s pin nick dev now room)) := by
  rw [joinRoom]
  by_cases hv : pin = "" ∨ nick = "" ∨ dev = ""
  · rw [if_pos hv]
    exact .inl ⟨_, rfl⟩
  · rw [if_neg hv]
    push_neg at hv
    obtain ⟨h1, h2, h3⟩ := hv
    split
    · exact .inl ⟨_, rfl⟩
    · rename_i room hr
      split
      · exact .inl ⟨_, rfl⟩
      · rename_i hf
        have hlt : room.users.length < room.limit := Nat.lt_of_not_le hf
        split
        · rename_i otherPin hd
          split
          · rename_i ho
            cases joinRoomFinish_cases st s pin nick dev now room with
            | inl hc => exact .inl ⟨_, hc.2⟩
            | inr hc =>
              exact .inr ⟨h1, h2, h3, room, hr, hlt, .inr (ho ▸ hd), hc.1, hc.2⟩
          · exact .inl ⟨_, rfl⟩
        · rename_i hd
          cases joinRoomFinish_cases st s pin nick dev now room with
          | inl hc => exact .inl ⟨_, hc.2⟩
          | inr hc =>
            exact .inr ⟨h1, h2, h3, room, hr, hlt, .inl hd, hc.1, hc.2⟩

/-- An erroring `join_room` hands the state back untouched. -/
theorem joinRoom_error_state (st : ServerState) (s pin nick dev : String) (now : Nat)
    (e : RoomError) (h : (joinRoom st s pin nick dev now).1 = .error e) :
    (joinRoom st s pin nick dev now).2 = st := by
  cases joinRoom_cases st s pin nick dev now with
  | inl hc =>
    obtain ⟨e2, he⟩ := hc
    rw [he]
  | inr hc =>
    obtain ⟨-, -, -, room, -, -, -, -, he⟩ := hc
    rw [he] at h
    cases h

/-- Unpacking a successful `join_room`: every check passed, the response
is determined by the room found, and the state is the success state. -/
theorem joinRoom_ok_spec (st : ServerState) (s pin nick dev : String) (now : Nat)
    (res : JoinOk) (st2 : ServerState)
    (h : joinRoom st s pin nick dev now = (.ok res, st2)) :
    pin ≠ "" ∧ nick ≠ "" ∧ dev ≠ "" ∧
    ∃ room, st.rooms pin = some room ∧
      room.users.length < room.limit ∧
      (st.deviceRoomMap dev = none ∨ st.deviceRoomMap dev = some pin) ∧
      (∀ u ∈ room.users, u.deviceId ≠ dev) ∧
      res = { pin := pin, participants := room.users.length + 1, limit := room.limit } ∧
      st2 = joinSuccessState st s pin nick dev now room := by
  cases joinRoom_cases st s pin nick dev now with
  | inl hc =>
    obtain ⟨e2, he⟩ := hc
    rw [he] at h
    cases h
  | inr hc =>
    obtain ⟨h1, h2, h3, room, hr, hlt, hd, hn, he⟩ := hc
    rw [he] at h
    injection h with hx hy
    injection hx with hres
    exact ⟨h1, h2, h3, room, hr, hlt, hd, hn, hres.symm, hy.symm⟩

/-- `findIndex`/`splice` decomposition: the removed user is the first
member with the socket id, and the remainder is the list around it. -/
theorem removeBySocket_spec (s : String) (l : List User) (u : User) (rest : List User)
    (h : removeBySocket s l = some (u, rest)) :
    ∃ l1 l2, l = l1 ++ u :: l2 ∧ rest = l1 ++ l2 ∧ u.socketId = s ∧
      ∀ v ∈ l1, v.socketId ≠ s := by
  induction l generalizing u rest with
  | nil => simp [removeBySocket] at h
  | cons a l ih =>
    rw [removeBySocket] at h
    by_cases ha : a.socketId = s
    · rw [if_pos ha] at h
      injection h with h2
      injection h2 with hu hrest
      exact ⟨[], l, by simp [hu], by simp [hrest], hu ▸ ha, by simp⟩
    · rw [if_neg ha] at h
      cases hm : removeBySocket s l with
      | none => rw [hm] at h; cases h
      | some p =>
        rw [hm] at h
        injection h with h2
        injection h2 with hu hrest
        obtain ⟨l1, l2, he1, he2, he3, he4⟩ := ih p.1 p.2 (by rw [hm])
        refine ⟨a :: l1, l2, by rw [he1, hu]; rfl, ?_, hu ▸ he3, ?_⟩
        · rw [← hrest, he2]
          rfl
        · intro v hv
          rcases List.mem_cons.mp hv with hv | hv
          · exact hv ▸ ha
          · exact he4 v hv

/-- Consequences of a successful removal: membership, the removed
member's socket id, the length drop and the member-count bookkeeping. -/
theorem removeBySocket_facts (s : String) (l : List User) (u : User) (rest : List User)
    (h : removeBySocket s l = some (u, rest)) :
    u ∈ l ∧ u.socketId = s ∧ l.length = rest.length + 1 ∧
    (∀ v ∈ rest, v ∈ l) ∧
    (∀ (q : User → Bool), q u = true → l.countP q = rest.countP q + 1) ∧
    (∀ (q : User → Bool), q u = false → l.countP q = rest.countP q) := by
  obtain ⟨l1, l2, he1, he2, he3, -⟩ := removeBySocket_spec s l u rest h
  subst he1
  subst he2
  refine ⟨by simp, he3, by simp; omega, fun v hv => ?_, fun q hq => ?_, fun q hq => ?_⟩
  · rcases List.mem_append.mp hv with hv | hv
    · exact List.mem_append.mpr (.inl hv)
    · exact List.mem_append.mpr (.inr (List.mem_cons_of_mem _ hv))
  · rw [List.countP_append, List.countP_append, List.countP_cons, hq]
    simp
    omega
  · rw [List.countP_append, List.countP_append, List.countP_cons, hq]
    simp

/-- Master case split for `disconnect`: either one of the lookups failed
and nothing happened (and no cleanup was scheduled), or the resolved
member was removed, both index entries deleted, and a cleanup scheduled
exactly when the room became empty. -/
theorem disconnect_cases (st : ServerState) (s : String) :
    disconnect st s = (st, none) ∨
    ∃ dev pin room u rest,
      st.socketToDeviceMap s = some dev ∧ dev ≠ "" ∧
      st.deviceRoomMap dev = some pin ∧ pin ≠ "" ∧
      st.rooms pin = some room ∧
      removeBySocket s room.users = some (u, rest) ∧
      disconnect st s =
        (⟨Map.set st.rooms pin { room with users := rest },
          Map.del st.deviceRoomMap dev,
          Map.del st.socketToDeviceMap s⟩,
          if rest.length = 0 then some pin else none) := by
  rw [disconnect]
  split
  · exact .inl rfl
  · rename_i dev hdev
    by_cases hd : dev = ""
    · rw [if_pos hd]
      exact .inl rfl
    · rw [if_neg hd]
      split
      · exact .inl rfl
      · rename_i pin hpin
        by_cases hp : pin = ""
        · rw [if_pos hp]
          exact .inl rfl
        · rw [if_neg hp]
          split
          · exact .inl rfl
          · rename_i room hroom
            split
            · exact .inl rfl
            · rename_i u1 rest1 hrem
              exact .inr ⟨dev, pin, room, u1, rest1, hdev, hd, hpin, hp, hroom,
                by rw [hrem], rfl⟩

/-- The deferred-cleanup body deletes nothing when the room is gone or
no longer empty, and deletes exactly the (still empty) room otherwise. -/
theorem cleanupRoom_cases (st : ServerState) (pin : String) :
    (st.rooms pin = none → cleanupRoom st pin = st) ∧
    (∀ room, st.rooms pin = some room → room.users.length ≠ 0 → cleanupRoom st pin = st) ∧
    (∀ room, st.rooms pin = some room → room.users.length = 0 →
      cleanupRoom st pin = { st with rooms := Map.del st.rooms pin }) := by
  refine ⟨fun h => by rw [cleanupRoom, h], fun room h hne => ?_, fun room h he => ?_⟩
  · simp [cleanupRoom, h, hne]
  · simp [cleanupRoom, h, he]

/-- Any room present after a cleanup was present before it. -/
theorem cleanupRoom_rooms_sub (st : ServerState) (pin p : String) (room : RoomData)
    (h : (cleanupRoom st pin).rooms p = some room) : st.rooms p = some room := by
  rw [cleanupRoom] at h
  split at h
  · exact h
  · split at h
    · dsimp only at h
      by_cases hq : p = pin
      · rw [hq, Map.del_eq] at h
        cases h
      · rwa [Map.del_ne _ _ hq] at h
    · exact h

/-- The `len(members) <= capacity` room invariant. -/
def CapacityOk (st : ServerState) : Prop :=
  ∀ p room, st.rooms p = some room → room.users.length ≤ room.limit

/-- Every event preserves the capacity invariant. -/
theorem capacityOk_applyOp (st : ServerState) (op : Op) (h : CapacityOk st) :
    CapacityOk (applyOp st op) := by
  cases op with
  | create s nick limit draws now =>
    rw [applyOp]
    cases hc : createRoom st s nick limit draws now with
    | none => exact h
    | some out =>
      obtain ⟨res, st2⟩ := out
      cases res with
      | error e =>
        rw [createRoom_error_state st s nick limit draws now e st2 hc]
        exact h
      | ok res =>
        obtain ⟨-, -, -, -, hpin, hother, -, -⟩ :=
          createRoom_ok_spec st s nick limit draws now res st2 hc
        intro p room hp
        by_cases hq : p = res.pin
        · rw [hq, hpin] at hp
          cases hp
          simp
        · rw [hother p hq] at hp
          exact h p room hp
  | join s pin nick dev now =>
    rw [applyOp]
    cases joinRoom_cases st s pin nick dev now with
    | inl hc =>
      obtain ⟨e, he⟩ := hc
      rw [he]
      exact h
    | inr hc =>
      obtain ⟨-, -, -, room, hr, hlt, -, -, he⟩ := hc
      rw [he]
      intro p room2 hp
      simp only [joinSuccessState] at hp
      by_cases hq : p = pin
      · rw [hq, Map.set_eq] at hp
        cases hp
        simpa using hlt
      · rw [Map.set_ne _ _ _ hq] at hp
        exact h p room2 hp
  | send pin autor msg now => exact h
  | disc s =>
    rw [applyOp]
    cases disconnect_cases st s with
    | inl hc =>
      rw [hc]
      exact h
    | inr hc =>
      obtain ⟨dev, pin, room, u, rest, -, -, -, -, hroom, hrem, heq⟩ := hc
      rw [heq]
      intro p room2 hp
      dsimp only at hp
      by_cases hq : p = pin
      · rw [hq, Map.set_eq] at hp
        cases hp
        have hlen := (removeBySocket_facts s room.users u rest hrem).2.2.1
        have := h pin room hroom
        dsimp only
        omega
      · rw [Map.set_ne _ _ _ hq] at hp
        exact h p room2 hp
  | fireCleanup pin =>
    intro p room hp
    exact h p room (cleanupRoom_rooms_sub st pin p room hp)

/-- The capacity invariant holds in every reachable state. -/
theorem capacityOk_reachable (st : ServerState) (h : Reachable st) : CapacityOk st := by
  induction h with
  | init => intro p room hp; cases hp
  | step st2 op h2 ih => exact capacityOk_applyOp st2 op ih

/-- Every member of every room has its device indexed to that room's
pin. -/
def MemIndexed (st : ServerState) : Prop :=
  ∀ p room u, st.rooms p = some room → u ∈ room.users →
    st.deviceRoomMap u.deviceId = some p

/-- Every Device→Room entry points to an existing room containing
exactly one member with that device. -/
def IndexBacked (st : ServerState) : Prop :=
  ∀ d p, st.deviceRoomMap d = some p →
    ∃ room, st.rooms p = some room ∧
      room.users.countP (fun u => u.deviceId == d) = 1

/-- Every member's connection is bound (in Connection→Device) to that
member's device. -/
def SockBacked (st : ServerState) : Prop :=
  ∀ p room u, st.rooms p = some room → u ∈ room.users →
    st.socketToDeviceMap u.socketId = some u.deviceId

/-- The inductive registry invariant tying the three maps together. -/
def Inv (st : ServerState) : Prop := MemIndexed st ∧ IndexBacked st ∧ SockBacked st

theorem inv_create (st : ServerState) (s nick : String) (limit : Nat)
    (draws : List Nat) (now : Nat) (h : Inv st) :
    Inv (applyOp st (.create s nick limit draws now)) := by
  obtain ⟨h1, h2, h3⟩ := h
  rw [applyOp]
  cases hc : createRoom st s nick limit draws now with
  | none => exact ⟨h1, h2, h3⟩
  | some out =>
    obtain ⟨res, st2⟩ := out
    cases res with
    | error e =>
      rw [createRoom_error_state st s nick limit draws now e st2 hc]
      exact ⟨h1, h2, h3⟩
    | ok res =>
      obtain ⟨-, hgen, -, -, hpin, hother, hdev, hsockm⟩ :=
        createRoom_ok_spec st s nick limit draws now res st2 hc
      have hfresh : st.rooms res.pin = none :=
        (generateUniquePIN_spec st.rooms draws res.pin hgen).1
      refine ⟨?_, ?_, ?_⟩
      · intro p room u hp hu
        rw [hdev]
        by_cases hq : p = res.pin
        · rw [hq, hpin] at hp
          injection hp with hp
          rw [← hp] at hu
          simp at hu
        · rw [hother p hq] at hp
          exact h1 p room u hp hu
      · intro d p hd
        rw [hdev] at hd
        obtain ⟨room, hroom, hcnt⟩ := h2 d p hd
        by_cases hq : p = res.pin
        · rw [hq, hfresh] at hroom
          cases hroom
        · exact ⟨room, by rw [hother p hq]; exact hroom, hcnt⟩
      · intro p room u hp hu
        rw [hsockm]
        by_cases hq : p = res.pin
        · rw [hq, hpin] at hp
          injection hp with hp
          rw [← hp] at hu
          simp at hu
        · rw [hother p hq] at hp
          exact h3 p room u hp hu

theorem inv_join (st : ServerState) (s pin nick dev : String) (now : Nat)
    (h : Inv st)
    (hcons : st.socketToDeviceMap s = none ∨ st.socketToDeviceMap s = some dev) :
    Inv (applyOp st (.join s pin nick dev now)) := by
  obtain ⟨h1, h2, h3⟩ := h
  rw [applyOp]
  cases joinRoom_cases st s pin nick dev now with
  | inl hc =>
    obtain ⟨e, he⟩ := hc
    rw [he]
    exact ⟨h1, h2, h3⟩
  | inr hc =>
    obtain ⟨-, -, -, room, hr, hlt, hd, hn, he⟩ := hc
    rw [he]
    have hdevnone : st.deviceRoomMap dev = none := by
      cases hd with
      | inl hd => exact hd
      | inr hd =>
        obtain ⟨room2, hroom2, hcnt⟩ := h2 dev pin hd
        rw [hr] at hroom2
        injection hroom2 with hroom2
        rw [← hroom2] at hcnt
        have hpos : 0 < room.users.countP (fun u => u.deviceId == dev) := by omega
        obtain ⟨u, hu, hbu⟩ := List.countP_pos_iff.mp hpos
        exact (hn u hu (by simpa using hbu)).elim
    have hNoDev : ∀ p2 room2 u, st.rooms p2 = some room2 → u ∈ room2.users →
        u.deviceId ≠ dev := by
      intro p2 room2 u hp hu hud
      have hx := h1 p2 room2 u hp hu
      rw [hud, hdevnone] at hx
      cases hx
    have hNoSock : ∀ p2 room2 u, st.rooms p2 = some room2 → u ∈ room2.users →
        u.socketId ≠ s := by
      intro p2 room2 u hp hu hus
      have hsb := h3 p2 room2 u hp hu
      rw [hus] at hsb
      cases hcons with
      | inl hc2 => rw [hc2] at hsb; cases hsb
      | inr hc2 =>
        rw [hc2] at hsb
        injection hsb with hsb
        exact hNoDev p2 room2 u hp hu hsb.symm
    refine ⟨?_, ?_, ?_⟩
    · intro p2 room2 u hp hu
      simp only [joinSuccessState] at hp ⊢
      by_cases hq : p2 = pin
      · subst hq
        rw [Map.set_eq] at hp
        injection hp with hp
        rw [← hp] at hu
        have hu2 : u ∈ room.users ++ [mkUser s nick dev now] := by simpa using hu
        rcases List.mem_append.mp hu2 with hu3 | hu3
        · by_cases hud : u.deviceId = dev
          · rw [hud, Map.set_eq]
          · rw [Map.set_ne _ _ _ hud]
            exact h1 p2 room u hr hu3
        · have hu4 : u = mkUser s nick dev now := by simpa using hu3
          rw [hu4]
          rw [show (mkUser s nick dev now).deviceId = dev from rfl, Map.set_eq]
      · rw [Map.set_ne _ _ _ hq] at hp
        have hne := hNoDev p2 room2 u hp hu
        rw [Map.set_ne _ _ _ hne]
        exact h1 p2 room2 u hp hu
    · intro d p2 hd2
      simp only [joinSuccessState] at hd2 ⊢
      by_cases hdd : d = dev
      · subst hdd
        rw [Map.set_eq] at hd2
        injection hd2 with hd2
        rw [← hd2]
        refine ⟨_, Map.set_eq _ _ _, ?_⟩
        dsimp only
        rw [List.countP_append]
        have hz : room.users.countP (fun u => u.deviceId == d) = 0 :=
          List.countP_eq_zero.mpr (fun u hu => by simp [hn u hu])
        rw [hz]
        simp [mkUser]
      · rw [Map.set_ne _ _ _ hdd] at hd2
        obtain ⟨room3, hroom3, hcnt3⟩ := h2 d p2 hd2
        by_cases hq : p2 = pin
        · subst hq
          rw [hr] at hroom3
          injection hroom3 with hroom3
          refine ⟨_, Map.set_eq _ _ _, ?_⟩
          dsimp only
          rw [← hroom3] at hcnt3
          rw [List.countP_append, hcnt3]
          have hmk : ((mkUser s nick dev now).deviceId == d) = false := by
            simp [mkUser]
            exact fun h => hdd h.symm
          simp [hmk]
        · rw [Map.set_ne _ _ _ hq]
          exact ⟨room3, hroom3, hcnt3⟩
    · intro p2 room2 u hp hu
      simp only [joinSuccessState] at hp ⊢
      by_cases hq : p2 = pin
      · subst hq
        rw [Map.set_eq] at hp
        injection hp with hp
        rw [← hp] at hu
        have hu2 : u ∈ room.users ++ [mkUser s nick dev now] := by simpa using hu
        rcases List.mem_append.mp hu2 with hu3 | hu3
        · have hus : u.socketId ≠ s := hNoSock p2 room u hr hu3
          rw [Map.set_ne _ _ _ hus]
          exact h3 p2 room u hr hu3
        · have hu4 : u = mkUser s nick dev now := by simpa using hu3
          rw [hu4]
          rw [show (mkUser s nick dev now).socketId = s from rfl, Map.set_eq]
          rfl
      · rw [Map.set_ne _ _ _ hq] at hp
        have hus := hNoSock p2 room2 u hp hu
        rw [Map.set_ne _ _ _ hus]
        exact h3 p2 room2 u hp hu

theorem inv_disc (st : ServerState) (s : String) (h : Inv st) :
    Inv (applyOp st (.disc s)) := by
  obtain ⟨h1, h2, h3⟩ := h
  rw [applyOp]
  cases disconnect_cases st s with
  | inl hc =>
    rw [hc]
    exact ⟨h1, h2, h3⟩
  | inr hc =>
    obtain ⟨dev, pin, room, u, rest, hsock, -, hdev, -, hroom, hrem, heq⟩ := hc
    rw [heq]
    obtain ⟨humem, husock, -, hsubset, hcountT, hcountF⟩ :=
      removeBySocket_facts s room.users u rest hrem
    have hudev : u.deviceId = dev := by
      have hx := h3 pin room u hroom humem
      rw [husock, hsock] at hx
      injection hx with hx
      exact hx.symm
    have hcnt1 : room.users.countP (fun v => v.deviceId == dev) = 1 := by
      obtain ⟨room2, hroom2, hc2⟩ := h2 dev pin hdev
      rw [hroom] at hroom2
      injection hroom2 with hroom2
      rw [← hroom2] at hc2
      exact hc2
    have hrest0 : rest.countP (fun v => v.deviceId == dev) = 0 := by
      have hq : ((fun v => v.deviceId == dev) u : Bool) = true := by simp [hudev]
      have hx := hcountT (fun v => v.deviceId == dev) hq
      rw [hcnt1] at hx
      omega
    have hRestNoDev : ∀ v ∈ rest, v.deviceId ≠ dev := by
      intro v hv hvd
      have hx := List.countP_eq_zero.mp hrest0 v hv
      simp [hvd] at hx
    refine ⟨?_, ?_, ?_⟩
    · intro p2 room2 v hp hv
      dsimp only at hp ⊢
      by_cases hq : p2 = pin
      · subst hq
        rw [Map.set_eq] at hp
        injection hp with hp
        rw [← hp] at hv
        have hv2 : v ∈ rest := by simpa using hv
        have hvd := hRestNoDev v hv2
        rw [Map.del_ne _ _ hvd]
        exact h1 p2 room v hroom (hsubset v hv2)
      · rw [Map.set_ne _ _ _ hq] at hp
        have hvd : v.deviceId ≠ dev := by
          intro hvd
          have hx := h1 p2 room2 v hp hv
          rw [hvd, hdev] at hx
          injection hx with hx
          exact hq hx.symm
        rw [Map.del_ne _ _ hvd]
        exact h1 p2 room2 v hp hv
    · intro d p2 hd2
      dsimp only at hd2 ⊢
      by_cases hdd : d = dev
      · rw [hdd, Map.del_eq] at hd2
        cases hd2
      · rw [Map.del_ne _ _ hdd] at hd2
        obtain ⟨room3, hroom3, hcnt3⟩ := h2 d p2 hd2
        by_cases hq : p2 = pin
        · subst hq
          rw [hroom] at hroom3
          injection hroom3 with hroom3
          refine ⟨_, Map.set_eq _ _ _, ?_⟩
          dsimp only
          have hfalse : ((fun v => v.deviceId == d) u : Bool) = false := by
            simp [hudev]
            exact fun h => hdd h.symm
          have hx := hcountF (fun v => v.deviceId == d) hfalse
          rw [← hroom3] at hcnt3
          omega
        · rw [Map.set_ne _ _ _ hq]
          exact ⟨room3, hroom3, hcnt3⟩
    · intro p2 room2 v hp hv
      dsimp only at hp ⊢
      by_cases hq : p2 = pin
      · subst hq
        rw [Map.set_eq] at hp
        injection hp with hp
        rw [← hp] at hv
        have hv2 : v ∈ rest := by simpa using hv
        have hvs : v.socketId ≠ s := by
          intro hvs
          have hx := h3 p2 room v hroom (hsubset v hv2)
          rw [hvs, hsock] at hx
          injection hx with hx
          exact hRestNoDev v hv2 hx.symm
        rw [Map.del_ne _ _ hvs]
        exact h3 p2 room v hroom (hsubset v hv2)
      · rw [Map.set_ne _ _ _ hq] at hp
        have hvs : v.socketId ≠ s := by
          intro hvs
          have hx := h3 p2 room2 v hp hv
          rw [hvs, hsock] at hx
          injection hx with hx
          have hy := h1 p2 room2 v hp hv
          rw [← hx] at hy
          rw [hdev] at hy
          injection hy with hy
          exact hq hy.symm
        rw [Map.del_ne _ _ hvs]
        exact h3 p2 room2 v hp hv

theorem inv_cleanup (st : ServerState) (pin : String) (h : Inv st) :
    Inv (applyOp st (.fireCleanup pin)) := by
  obtain ⟨h1, h2, h3⟩ := h
  rw [applyOp, cleanupRoom]
  split
  · exact ⟨h1, h2, h3⟩
  · rename_i room hroom
    split
    · rename_i hempty
      refine ⟨?_, ?_, ?_⟩
      · intro p2 room2 v hp hv
        dsimp only at hp
        by_cases hq : p2 = pin
        · rw [hq, Map.del_eq] at hp
          cases hp
        · rw [Map.del_ne _ _ hq] at hp
          exact h1 p2 room2 v hp hv
      · intro d p2 hd2
        dsimp only at hd2 ⊢
        obtain ⟨room2, hroom2, hcnt⟩ := h2 d p2 hd2
        by_cases hq : p2 = pin
        · rw [hq, hroom] at hroom2
          injection hroom2 with hroom2
          have hzero : room.users = [] := List.length_eq_zero.mp hempty
          rw [← hroom2, hzero] at hcnt
          simp at hcnt
        · rw [Map.del_ne _ _ hq]
          exact ⟨room2, hroom2, hcnt⟩
      · intro p2 room2 v hp hv
        dsimp only at hp
        by_cases hq : p2 = pin
        · rw [hq, Map.del_eq] at hp
          cases hp
        · rw [Map.del_ne _ _ hq] at hp
          exact h3 p2 room2 v hp hv
    · exact ⟨h1, h2, h3⟩

theorem inv_applyOp (st : ServerState) (op : Op) (h : Inv st)
    (hc : ConsistentOp st op) : Inv (applyOp st op) := by
  cases op with
  | create s nick limit draws now => exact inv_create st s nick limit draws now h
  | join s pin nick dev now => exact inv_join st s pin nick dev now h hc
  | send pin autor msg now => exact h
  | disc s => exact inv_disc st s h
  | fireCleanup pin => exact inv_cleanup st pin h

/-- The registry invariant holds in every device-consistently reachable
state. -/
theorem inv_dreachable (st : ServerState) (h : DReachable st) : Inv st := by
  induction h with
  | init =>
    refine ⟨?_, ?_, ?_⟩
    · intro p room u hp hu
      cases hp
    · intro d p hd
      cases hd
    · intro p room u hp hu
      cases hp
  | step st2 op h2 hc ih => exact inv_applyOp st2 op ih hc

/-- The Device→Room index coherence stated by the spec: each indexed
device maps to one pin, the room at that pin holds exactly one member
with the device, and no other room holds any. -/
def DeviceIndexCoherent (st : ServerState) : Prop :=
  ∀ d p, st.deviceRoomMap d = some p →
    (∀ q, st.deviceRoomMap d = some q → q = p) ∧
    ∃ room, st.rooms p = some room ∧
      room.users.countP (fun u => u.deviceId == d) = 1 ∧
      ∀ q room2, st.rooms q = some room2 → q ≠ p →
        room2.users.countP (fun u => u.deviceId == d) = 0

theorem inv_deviceIndexCoherent (st : ServerState) (h : Inv st) :
    DeviceIndexCoherent st := by
  obtain ⟨h1, h2, h3⟩ := h
  intro d p hd
  refine ⟨fun q hq => ?_, ?_⟩
  · rw [hd] at hq
    injection hq with hq
    exact hq.symm
  · obtain ⟨room, hroom, hcnt⟩ := h2 d p hd
    refine ⟨room, hroom, hcnt, ?_⟩
    intro q room2 hq hne
    rw [List.countP_eq_zero]
    intro u hu hb
    have hud : u.deviceId = d := by simpa using hb
    have hx := h1 q room2 u hq hu
    rw [hud, hd] at hx
    injection hx with hx
    exact hne hx.symm

/-- One event keeps a connection unbound in Connection→Device, as long
as the event is not a successful join by that connection: only a
successful `join_room` writes to `socketToDeviceMap`. -/
theorem sockMap_none_applyOp (st : ServerState) (op : Op) (sid : String)
    (h : st.socketToDeviceMap sid = none)
    (hop : ∀ pin nick dev now, op = Op.join sid pin nick dev now →
      ∃ e, (joinRoom st sid pin nick dev now).1 = Except.error e) :
    (applyOp st op).socketToDeviceMap sid = none := by
  cases op with
  | create s nick limit draws now =>
    rw [(applyOp_create_indices st s nick limit draws now).2]
    exact h
  | join s pin nick dev now =>
    by_cases hs : s = sid
    · subst hs
      obtain ⟨e, he⟩ := hop pin nick dev now rfl
      rw [applyOp, joinRoom_error_state st s pin nick dev now e he]
      exact h
    · rw [applyOp]
      cases joinRoom_cases st s pin nick dev now with
      | inl hc =>
        obtain ⟨e, he⟩ := hc
        rw [he]
        exact h
      | inr hc =>
        obtain ⟨-, -, -, room, -, -, -, -, he⟩ := hc
        rw [he]
        simp only [joinSuccessState]
        rw [Map.set_ne _ _ _ (fun hx => hs hx.symm)]
        exact h
  | send pin autor msg now => exact h
  | disc s =>
    rw [applyOp]
    cases disconnect_cases st s with
    | inl hc =>
      rw [hc]
      exact h
    | inr hc =>
      obtain ⟨dev, pin, room, u, rest, -, -, -, -, -, -, heq⟩ := hc
      rw [heq]
      exact Map.del_of_none _ _ _ h
  | fireCleanup pin =>
    rw [applyOp, cleanupRoom]
    split
    · exact h
    · split
      · exact h
      · exact h

/-- A whole trace without a successful join by `sid` keeps `sid` unbound. -/
theorem sockMap_none_trace (sid : String) (tr : List Op) (st : ServerState)
    (h : st.socketToDeviceMap sid = none) (hn : noSuccessfulJoinBy sid st tr) :
    (execTrace st tr).socketToDeviceMap sid = none := by
  induction tr generalizing st with
  | nil => exact h
  | cons op tr ih =>
    obtain ⟨hop, htr⟩ := hn
    exact ih (applyOp st op) (sockMap_none_applyOp st op sid h hop) htr

/-- `disconnect` for an unbound connection is a no-op: the early
`socketToDeviceMap` lookup fails, so no state is touched and no cleanup
timer is scheduled. -/
theorem disconnect_noop_of_unbound (st : ServerState) (sid : String)
    (h : st.socketToDeviceMap sid = none) : disconnect st sid = (st, none) := by
  rw [disconnect, h]

/-
Concrete scenario states used by witnesses and counterexamples.  All of
them start from one `create_room` by connection "h" with nickname "Ana"
and limit 2 (the PIN draw 0 yields PIN "100000").
-/

/-- State after the initial `create_room`. -/
def sc0 : ServerState := applyOp initialState (.create "h" "Ana" 2 [0] 0)

/-- First join of the capacity scenario. -/
def capJoin1 : Except RoomError JoinOk × ServerState :=
  joinRoom sc0 "sA" "100000" "Ana" "dA" 1

def capSt1 : ServerState := capJoin1.2

/-- Second join of the capacity scenario. -/
def capJoin2 : Except RoomError JoinOk × ServerState :=
  joinRoom capSt1 "sB" "100000" "Beto" "dB" 2

def capSt2 : ServerState := capJoin2.2

/-- The room contents after the first capacity-scenario join. -/
def capRoom1 : RoomData :=
  { hostSocketId := "h", limit := 2, users := [mkUser "sA" "Ana" "dA" 1], createdAt := 0 }

/-- The room contents after the second capacity-scenario join. -/
def capRoom2 : RoomData :=
  { hostSocketId := "h", limit := 2,
    users := [mkUser "sA" "Ana" "dA" 1, mkUser "sB" "Beto" "dB" 2], createdAt := 0 }

theorem sc0_reachable : Reachable sc0 :=
  Reachable.step initialState (.create "h" "Ana" 2 [0] 0) Reachable.init

theorem capSt1_reachable : Reachable capSt1 :=
  Reachable.step sc0 (.join "sA" "100000" "Ana" "dA" 1) sc0_reachable

theorem capSt2_reachable : Reachable capSt2 :=
  Reachable.step capSt1 (.join "sB" "100000" "Beto" "dB" 2) capSt1_reachable

/-- States of the device-index counterexample: one socket "s" joins room
"100000" twice, under device "d1" and then under device "d2", and then
disconnects. -/
def cexSt1 : ServerState := applyOp sc0 (.join "s" "100000" "n1" "d1" 1)

def cexSt2 : ServerState := applyOp cexSt1 (.join "s" "100000" "n2" "d2" 2)

def cexSt3 : ServerState := applyOp cexSt2 (.disc "s")

/-- The room contents left behind by the counterexample disconnect. -/
def cexRoom : RoomData :=
  { hostSocketId := "h", limit := 2, users := [mkUser "s" "n2" "d2" 2], createdAt := 0 }

theorem cexSt3_reachable : Reachable cexSt3 :=
  Reachable.step cexSt2 (.disc "s")
    (Reachable.step cexSt1 (.join "s" "100000" "n2" "d2" 2)
      (Reachable.step sc0 (.join "s" "100000" "n1" "d1" 1) sc0_reachable))

theorem capSt1_dreachable : DReachable capSt1 :=
  DReachable.step sc0 (.join "sA" "100000" "Ana" "dA" 1)
    (DReachable.step initialState (.create "h" "Ana" 2 [0] 0) DReachable.init trivial)
    (Or.inl (by decide))

/-
The claim theorems.
-/

/-- C1 (amended): in every state reachable by create_room, join_room,
send_message and disconnect events in which every join presents a
device_id consistent with the device already recorded for its
connection, each device_id present in the Device→Room index maps to
exactly one PIN, exactly one room holds exactly one member with that
device_id, and that room's key is the indexed PIN.  (As literally
stated, over all event sequences, the invariant fails: one socket may
join the same room under two device ids, after which its disconnect
removes the first member found by socket id but deletes the other
device's index entry — see the counterexample.) -/
theorem claim_C1 (st : ServerState) (h : DReachable st) : DeviceIndexCoherent st :=
  inv_deviceIndexCoherent st (inv_dreachable st h)

theorem claim_C1_witness : DeviceIndexCoherent capSt1 :=
  claim_C1 capSt1 capSt1_dreachable

/-- C1 counterexample: after create; join "s"/"d1"; join "s"/"d2";
disconnect "s" — all four operations of the claim — device "d1" is still
indexed to room "100000" although that room holds no member with device
"d1" any more.  The state is reachable, yet `DeviceIndexCoherent`
fails. -/
theorem claim_C1_counterexample :
    Reachable cexSt3 ∧ cexSt3.deviceRoomMap "d1" = some "100000" ∧
    cexSt3.rooms "100000" = some cexRoom ∧
    cexRoom.users.countP (fun u => u.deviceId == "d1") = 0 ∧
    ¬ DeviceIndexCoherent cexSt3 := by
  refine ⟨cexSt3_reachable, by decide, by decide, by decide, ?_⟩
  intro hioc
  obtain ⟨-, room, hroom, hcnt, -⟩ := hioc "d1" "100000" (by decide)
  have hx : cexSt3.rooms "100000" = some cexRoom := by decide
  rw [hx] at hroom
  injection hroom with hroom
  rw [← hroom] at hcnt
  have hz : cexRoom.users.countP (fun u => u.deviceId == "d1") = 0 := by decide
  omega

/-- C2: in every reachable state every room satisfies
`len(members) <= capacity`; and concretely, after creating a room with
limit 2, two joins by distinct devices succeed (participants 1 then 2)
and a third distinct device's join is rejected with RoomFull. -/
theorem claim_C2 :
    (∀ st, Reachable st → ∀ p room, st.rooms p = some room →
      room.users.length ≤ room.limit) ∧
    capJoin1.1 = .ok { pin := "100000", participants := 1, limit := 2 } ∧
    capJoin2.1 = .ok { pin := "100000", participants := 2, limit := 2 } ∧
    (joinRoom capSt2 "sC" "100000" "Caro" "dC" 3).1 = .error .roomFull :=
  ⟨fun st h => capacityOk_reachable st h, rfl, rfl, rfl⟩

theorem claim_C2_witness : capRoom2.users.length ≤ capRoom2.limit :=
  claim_C2.1 capSt2 capSt2_reachable "100000" capRoom2 (by decide)

/-- C3 (amended): the re-drawing allocator `generateUniquePIN` of the
richer variant, whenever its loop finishes, returns the decimal string
of a number in 100000–999999 (six digits) that is not the key of any
active room; the one-shot allocator `generatePIN` of the simpler variant
returns a six-digit decimal string in the range but performs no
freshness re-draw, so it can return an active room's PIN (see the
counterexample). -/
theorem claim_C3 :
    (∀ rooms draws p, generateUniquePIN rooms draws = some p →
      rooms p = none ∧
      ∃ n, p = Nat.repr n ∧ 100000 ≤ n ∧ n ≤ 999999 ∧
        (Nat.digits 10 n).length = 6) ∧
    (∀ d, ∃ n, generatePIN d = Nat.repr n ∧ 100000 ≤ n ∧ n ≤ 999999 ∧
      (Nat.digits 10 n).length = 6) := by
  constructor
  · intro rooms draws p h
    obtain ⟨hnone, n, hrepr, hlo, hhi⟩ := generateUniquePIN_spec rooms draws p h
    exact ⟨hnone, n, hrepr, hlo, hhi, six_digits_of_range n hlo hhi⟩
  · intro d
    obtain ⟨n, hrepr, hlo, hhi⟩ := generatePIN_range d
    exact ⟨n, hrepr, hlo, hhi, six_digits_of_range n hlo hhi⟩

theorem claim_C3_witness :
    Map.empty "100000" = (none : Option RoomData) ∧
    ∃ n, ("100000" : String) = Nat.repr n ∧ 100000 ≤ n ∧ n ≤ 999999 ∧
      (Nat.digits 10 n).length = 6 :=
  claim_C3.1 Map.empty [0] "100000" (by decide)

/-- C3 counterexample: in the reachable state where room "100000" is
active, the simpler variant's allocator `generatePIN` on draw 0 returns
exactly that active PIN — it is not re-drawn until unused. -/
theorem claim_C3_counterexample :
    Reachable sc0 ∧ generatePIN 0 = "100000" ∧
    (sc0.rooms (generatePIN 0)).isSome = true :=
  ⟨sc0_reachable, by decide, by decide⟩

/-- C4: with a complete payload, `join_room` validates in the fixed
order RoomNotFound, RoomFull, DeviceAlreadyElsewhere,
DeviceAlreadyInRoom; the first failing check determines the error and
short-circuits the rest, and at most one error is returned. -/
theorem claim_C4 (st : ServerState) (s pin nick dev : String) (now : Nat)
    (hp : pin ≠ "") (hn : nick ≠ "") (hd : dev ≠ "") :
    (st.rooms pin = none →
      (joinRoom st s pin nick dev now).1 = .error .roomNotFound) ∧
    (∀ room, st.rooms pin = some room → room.users.length ≥ room.limit →
      (joinRoom st s pin nick dev now).1 = .error .roomFull) ∧
    (∀ room p2, st.rooms pin = some room → room.users.length < room.limit →
      st.deviceRoomMap dev = some p2 → p2 ≠ pin →
      (joinRoom st s pin nick dev now).1 = .error .deviceAlreadyElsewhere) ∧
    (∀ room, st.rooms pin = some room → room.users.length < room.limit →
      (st.deviceRoomMap dev = none ∨ st.deviceRoomMap dev = some pin) →
      room.users.any (fun u => u.deviceId == dev) = true →
      (joinRoom st s pin nick dev now).1 = .error .deviceAlreadyInRoom) ∧
    (∀ e1 e2, (joinRoom st s pin nick dev now).1 = .error e1 →
      (joinRoom st s pin nick dev now).1 = .error e2 → e1 = e2) := by
  have hv : ¬(pin = "" ∨ nick = "" ∨ dev = "") := by simp [hp, hn, hd]
  refine ⟨?_, ?_, ?_, ?_, ?_⟩
  · intro hr
    rw [joinRoom, if_neg hv]
    simp only [hr]
  · intro room hr hf
    rw [joinRoom, if_neg hv]
    simp only [hr]
    rw [if_pos hf]
  · intro room p2 hr hlt hd2 hne
    rw [joinRoom, if_neg hv]
    simp only [hr]
    rw [if_neg (Nat.not_le.mpr hlt)]
    simp only [hd2]
    rw [if_neg hne]
  · intro room hr hlt hdok ha
    rw [joinRoom, if_neg hv]
    simp only [hr]
    rw [if_neg (Nat.not_le.mpr hlt)]
    cases hdok with
    | inl hdn =>
      simp only [hdn]
      rw [joinRoomFinish, if_pos ha]
    | inr hdp =>
      simp [hdp, joinRoomFinish, ha]
  · intro e1 e2 h1 h2
    rw [h1] at h2
    exact Except.error.inj h2

theorem claim_C4_witness :
    (joinRoom initialState "s" "111111" "Ana" "d1" 0).1 = .error .roomNotFound :=
  (claim_C4 initialState "s" "111111" "Ana" "d1" 0 (by decide) (by decide)
    (by decide)).1 rfl

/-- C5: every successful `join_room` returns `participants` equal to the
member-list length after the append, which is exactly one more than the
length immediately before the call. -/
theorem claim_C5 (st : ServerState) (s pin nick dev : String) (now : Nat)
    (res : JoinOk) (st2 : ServerState)
    (h : joinRoom st s pin nick dev now = (.ok res, st2)) :
    ∃ room room2, st.rooms pin = some room ∧ st2.rooms pin = some room2 ∧
      res.participants = room2.users.length ∧
      room2.users.length = room.users.length + 1 := by
  obtain ⟨-, -, -, room, hr, -, -, -, hres, hst⟩ :=
    joinRoom_ok_spec st s pin nick dev now res st2 h
  subst hst
  refine ⟨room, { room with users := room.users ++ [mkUser s nick dev now] }, hr,
    ?_, ?_, ?_⟩
  · simp only [joinSuccessState]
    exact Map.set_eq _ _ _
  · rw [hres]
    simp
  · simp

theorem claim_C5_witness :
    ∃ room room2, sc0.rooms "100000" = some room ∧
      capSt1.rooms "100000" = some room2 ∧
      (⟨"100000", 1, 2⟩ : JoinOk).participants = room2.users.length ∧
      room2.users.length = room.users.length + 1 :=
  claim_C5 sc0 "sA" "100000" "Ana" "dA" 1 ⟨"100000", 1, 2⟩ capSt1 rfl

/-- C6 (amended): `send_message` broadcasts a `receive_message` payload
carrying the author, the trimmed text and the server timestamp exactly
when pin, author and text are all non-empty *as given* (before
trimming) and a room with the pin exists; in every other case the call
is silently dropped with nothing broadcast and no error to the sender.
A whitespace-only text is therefore broadcast — with empty trimmed
content — contrary to the claim's "non-empty after trimming" (see the
counterexample). -/
theorem claim_C6 (st : ServerState) (pin autor msg : String) (now : Nat)
    (out : ReceiveMessage) :
    sendMessage st pin autor msg now = some out ↔
      (pin ≠ "" ∧ autor ≠ "" ∧ msg ≠ "" ∧ (st.rooms pin).isSome = true ∧
        out = { autor := autor, message := jsTrim msg, timestamp := now }) :=
  sendMessage_some_iff st pin autor msg now out

/-- C6 counterexample: with room "100000" present, a whitespace-only
text " " — empty after trimming — is broadcast rather than dropped. -/
theorem claim_C6_counterexample :
    jsTrim " " = "" ∧
    sendMessage sc0 "100000" "Ana" " " 5 =
      some { autor := "Ana", message := "", timestamp := 5 } := by decide

/-- C7: a `create_room` or `join_room` that returns an error leaves the
registry exactly as it was: the room table and both indices are the
same state (no partial mutation). -/
theorem claim_C7 (st : ServerState) :
    (∀ s nick limit draws now e st2,
      createRoom st s nick limit draws now = some (.error e, st2) → st2 = st) ∧
    (∀ s pin nick dev now e st2,
      joinRoom st s pin nick dev now = (.error e, st2) → st2 = st) := by
  constructor
  · intro s nick limit draws now e st2 h
    exact createRoom_error_state st s nick limit draws now e st2 h
  · intro s pin nick dev now e st2 h
    have h1 : (joinRoom st s pin nick dev now).1 = .error e := by rw [h]
    have h2 := joinRoom_error_state st s pin nick dev now e h1
    rw [h] at h2
    exact h2

theorem claim_C7_witness :
    (joinRoom initialState "s" "111111" "Ana" "d1" 0).2 = initialState :=
  (claim_C7 initialState).2 "s" "111111" "Ana" "d1" 0 .roomNotFound
    (joinRoom initialState "s" "111111" "Ana" "d1" 0).2 rfl

/-- C8: the deferred-cleanup body re-checks at fire time that the room
still exists and is still empty; a room whose member list is non-empty
at fire time is left untouched, a vanished pin is a no-op, and only a
still-empty room is deleted. -/
theorem claim_C8 (st : ServerState) (pin : String) :
    (∀ room, st.rooms pin = some room → room.users ≠ [] →
      cleanupRoom st pin = st) ∧
    (st.rooms pin = none → cleanupRoom st pin = st) ∧
    (∀ room, st.rooms pin = some room → room.users = [] →
      cleanupRoom st pin = { st with rooms := Map.del st.rooms pin }) := by
  obtain ⟨h0, h1, h2⟩ := cleanupRoom_cases st pin
  exact ⟨fun room hr hu => h1 room hr (fun hz => hu (List.length_eq_zero.mp hz)), h0,
    fun room hr hu => h2 room hr (by simp [hu])⟩

theorem claim_C8_witness : cleanupRoom capSt1 "100000" = capSt1 :=
  (claim_C8 capSt1 "100000").1 capRoom1 (by decide) (by decide)

/-- C9: `create_room` returns InvalidInput exactly when the nickname is
missing or the capacity is below 2 (and that is its only error); on
success it stores a room with an empty member list (the creator is not
auto-enrolled) under a PIN fresh w.r.t. the previous room table, and
answers `participants = 1`. -/
theorem claim_C9 (st : ServerState) (s nick : String) (limit : Nat)
    (draws : List Nat) (now : Nat) :
    ((∃ e st2, createRoom st s nick limit draws now = some (.error e, st2)) ↔
      (nick = "" ∨ limit < 2)) ∧
    (∀ e st2, createRoom st s nick limit draws now = some (.error e, st2) →
      e = .invalidInput) ∧
    (∀ res st2, createRoom st s nick limit draws now = some (.ok res, st2) →
      res.participants = 1 ∧ st.rooms res.pin = none ∧
      ∃ room, st2.rooms res.pin = some room ∧ room.users = [] ∧
        room.limit = limit) := by
  refine ⟨createRoom_error_iff st s nick limit draws now, ?_, ?_⟩
  · intro e st2 h
    rw [createRoom] at h
    by_cases hv : nick = "" ∨ limit < 2
    · rw [if_pos hv] at h
      injection h with h
      injection h with hx hy
      injection hx with hx
      exact hx.symm
    · rw [if_neg hv] at h
      cases hg : generateUniquePIN st.rooms draws with
      | none =>
        rw [hg] at h
        cases h
      | some pin =>
        rw [hg] at h
        injection h with h
        injection h with hx hy
        cases hx
  · intro res st2 h
    obtain ⟨-, hgen, hpart, -, hpin, -, -, -⟩ :=
      createRoom_ok_spec st s nick limit draws now res st2 h
    have hfresh := (generateUniquePIN_spec st.rooms draws res.pin hgen).1
    exact ⟨hpart, hfresh, ⟨_, hpin, rfl, rfl⟩⟩

theorem claim_C9_witness :
    (⟨"100000", 1, 2⟩ : CreateOk).participants = 1 ∧
    initialState.rooms "100000" = none ∧
    ∃ room, sc0.rooms "100000" = some room ∧ room.users = [] ∧ room.limit = 2 :=
  (claim_C9 initialState "h" "Ana" 2 [0] 0).2.2 ⟨"100000", 1, 2⟩ sc0 rfl

/-- C10: a connection that never performs a successful `join_room`
(e.g. a room-creating connection that only creates) never appears in
Connection→Device, so its disconnect leaves the room table and both
indices unchanged and schedules no deferred deletion. -/
theorem claim_C10 (sid : String) (tr : List Op)
    (h : noSuccessfulJoinBy sid initialState tr) :
    (execTrace initialState tr).socketToDeviceMap sid = none ∧
    disconnect (execTrace initialState tr) sid =
      (execTrace initialState tr, none) := by
  have hn : (execTrace initialState tr).socketToDeviceMap sid = none :=
    sockMap_none_trace sid tr initialState rfl h
  exact ⟨hn, disconnect_noop_of_unbound _ sid hn⟩

theorem claim_C10_witness :
    (execTrace initialState [Op.create "h" "Ana" 2 [0] 0]).socketToDeviceMap "h" =
      none ∧
    disconnect (execTrace initialState [Op.create "h" "Ana" 2 [0] 0]) "h" =
      (execTrace initialState [Op.create "h" "Ana" 2 [0] 0], none) :=
  claim_C10 "h" [Op.create "h" "Ana" 2 [0] 0]
    ⟨(fun _ _ _ _ hx => nomatch hx), trivial⟩

end Chat
